import Mathlib

/-!
Verification development for the aSocket rain effect (`src/rain/snow.js`).

The JavaScript source drives a falling-particle animation.  Per configuration
layer, a `Controller` owns a pool (`this.rainflakes : Array`) of `rainflake`
objects, a viewport snapshot (`this.document = {width, height}`), an `active`
flag and a `setInterval` handle.  A `rainflake` is a DOM element whose
position is stored through its `style.left` / `style.top` pixel strings; its
size comes from the injected CSS class `.rainflake { height: 30px; width: 3px }`.

Modelling conventions of this shallow embedding:

* Pixel quantities are exact rationals (`ℚ`); JavaScript numbers are embedded
  as exact arithmetic.  The `style.left`/`style.top` pixel-string storage is
  proved to be an exact round-trip separately (see the
  `jsNumChars`/`jsParseNumber` development below, which models the string
  level for every decimal value `m / 10^k` — the exact form of every finite
  JavaScript number), so the main controller model keeps positions as plain
  rationals.
* A flake carries a ghost identity `id : ℕ` standing for JavaScript object
  identity (`Array.prototype.indexOf` uses reference equality; distinct
  `new rainflake(...)` objects are never `===`-equal, which the model reflects
  by handing out fresh ids from a counter `nextId`).
* The DOM container is modelled as the finite set `dom : Finset ℕ` of ids of
  currently attached flake elements (`container.appendChild` inserts,
  `element.remove()` erases).  `getBoundingClientRect` of a flake is modelled
  with the container at the viewport origin: `x` = the `left` style, `y` = the
  `top` style, `width`/`height` = the CSS constants 3 and 30.
* `Math.random()` outcomes are prescribed by a stream `rng : List ℚ` inside
  the state (head consumed per call, `0` when exhausted).
* The cooperative event loop is modelled by an explicit event alphabet:
  `Event.tick` is one firing of the `setInterval` registration (a no-op once
  `clearInterval` ran), and `Event.genResume k` is the resumption of the
  pending delayed `await` of the `k`-th in-flight `generate` loop.  A pending
  `generate` loop is recorded by its current loop index `i` in `gen : List ℕ`.
* `tickRegs` and `genCalls` are ghost instrumentation counting the live
  `setInterval` registrations and the `generate()` invocations; they let the
  model distinguish "one registration" from "two registrations", which a
  boolean could not.
-/

/-- Model of one `CONFIG` layer entry of `snow.js`. -/
structure Config where
  LIMIT : ℕ
  BLUR : ℚ
  FALL_RATE : ℚ
  SWAY_RATE : ℚ
  deriving DecidableEq

/-- Model of one `rainflake` object: ghost identity plus the numeric values
stored through `element.style.left` / `element.style.top`, and the blur fixed
at construction. -/
structure Flake where
  id : ℕ
  left : ℚ
  top : ℚ
  blur : ℚ
  deriving DecidableEq

/-- Model of a `Controller` instance (one configuration layer). -/
structure Controller where
  config : Config
  rainflakes : List Flake
  docW : ℚ
  docH : ℚ
  active : Bool
  intervalLive : Bool
  gen : List ℕ
  dom : Finset ℕ
  nextId : ℕ
  rng : List ℚ
  tickRegs : ℕ
  genCalls : ℕ
  deriving DecidableEq

/-- Width of a flake element, from the injected CSS (`.rainflake { width: 3px }`). -/
def flakeWidth : ℚ := 3

/-- Height of a flake element, from the injected CSS (`.rainflake { height: 30px }`). -/
def flakeHeight : ℚ := 30

/-- A DOMRect as returned by `getBoundingClientRect`. -/
structure Rect where
  x : ℚ
  y : ℚ
  width : ℚ
  height : ℚ
  deriving DecidableEq

/-- `rainflake.bounds` (`this.element.getBoundingClientRect()`), with the
container at the viewport origin: `x`/`y` are the left/top styles and the size
is the fixed CSS size. -/
def rainflakeBounds (f : Flake) : Rect :=
  ⟨f.left, f.top, flakeWidth, flakeHeight⟩

/-- The lifecycle check of `Controller.animate`:
`bounds.x > (this.document.width + bounds.width) || bounds.y > (this.document.height + bounds.height)`. -/
def oobCheck (docW docH : ℚ) (f : Flake) : Bool :=
  let b := rainflakeBounds f
  decide (b.x > docW + b.width) || decide (b.y > docH + b.height)

/-- `Array.prototype.indexOf` of a flake in the pool.  JavaScript compares by
object reference; the model compares the ghost ids, returning the first index
(`some k`) or `none` standing for the JavaScript result `-1`. -/
def flakeIdx (fid : ℕ) : List Flake → Option ℕ
  | [] => none
  | f :: fs => if f.id = fid then some 0 else (flakeIdx fid fs).map (· + 1)

/-- `Array.prototype.splice(start, 1)`.  For a found index `some k` it deletes
the element at `k` (nothing when `k` is past the end); for `none` — the
JavaScript index `-1` — `splice(-1, 1)` deletes the last element (and deletes
nothing from an empty array), which is exactly `List.dropLast`. -/
def spliceOneAt (l : List Flake) : Option ℕ → List Flake
  | none => l.dropLast
  | some k => l.take k ++ l.drop (k + 1)

/-- `Controller.spawn`: push `new rainflake(Math.random() * this.document.width, 0, this.body, this.config.BLUR)`.
The constructor sets the position styles and appends the element to the container. -/
def Controller.spawn (s : Controller) : Controller :=
  let r := s.rng.headD 0
  let f : Flake := ⟨s.nextId, r * s.docW, 0, s.config.BLUR⟩
  { s with
    rainflakes := s.rainflakes ++ [f]
    dom := insert s.nextId s.dom
    nextId := s.nextId + 1
    rng := s.rng.tail }

/-- `Controller.remove`: `this.rainflakes.splice(this.rainflakes.indexOf(rainflake), 1)`
followed by `rainflake.element.remove()`.  The argument is the id of the flake
object passed in (which need not be in the pool). -/
def Controller.remove (s : Controller) (fid : ℕ) : Controller :=
  { s with
    rainflakes := spliceOneAt s.rainflakes (flakeIdx fid s.rainflakes)
    dom := s.dom.erase fid }

/-- `Controller.clear`: first `rainflake.element.remove()` for every pooled
flake, then `this.rainflakes = []`. -/
def Controller.clear (s : Controller) : Controller :=
  { s with
    dom := s.rainflakes.foldl (fun d f => d.erase f.id) s.dom
    rainflakes := [] }

/-- `Controller.stop`: `this.active = false; clearInterval(this.interval); this.interval = null`.
`clearInterval` deregisters the stored handle (a no-op on `null`). -/
def Controller.stop (s : Controller) : Controller :=
  { s with
    active := false
    intervalLive := false
    tickRegs := if s.intervalLive then s.tickRegs - 1 else s.tickRegs }

/-- One invocation of `async generate()` up to its first suspension: the loop
head `let i = this.rainflakes.length` is evaluated, and when `i < LIMIT` the
loop body suspends on its first randomized `setTimeout` await, recorded as a
pending chain holding the loop index; otherwise the loop exits at once.
`genCalls` is ghost instrumentation counting the invocations. -/
def Controller.generateCall (s : Controller) : Controller :=
  { s with
    genCalls := s.genCalls + 1
    gen :=
      (if s.rainflakes.length < s.config.LIMIT then [s.rainflakes.length] else []) ++ s.gen }

/-- `rainflake.top = rainflake.top + this.config.FALL_RATE` for one flake. -/
def fallStep (rate : ℚ) (f : Flake) : Flake :=
  { f with top := f.top + rate }

/-- The body of `Controller.animate`'s `for (const rainflake of this.rainflakes)`
loop, following the JavaScript array-iterator semantics: the iterator keeps a
cursor `j` and re-reads the (mutated) array each step, stopping once `j` is
past the current length.  Each visit mutates the visited flake's `top`, then
checks `oobCheck` and, when it holds, runs `this.remove(rainflake)` (a
splice that shifts later elements left) and `this.spawn()` (a push the cursor
has not reached yet).  The fuel argument starts at the entry length; a
removal is always paired with a spawn, so the length — and hence the needed
fuel — never changes. -/
def animateGo : ℕ → ℕ → Controller → Controller
  | 0, _, s => s
  | fuel + 1, j, s =>
    match s.rainflakes[j]? with
    | none => s
    | some f =>
      let f' := fallStep s.config.FALL_RATE f
      let s1 := { s with rainflakes := s.rainflakes.set j f' }
      if oobCheck s1.docW s1.docH f' then
        animateGo fuel (j + 1) (Controller.spawn (Controller.remove s1 f'.id))
      else
        animateGo fuel (j + 1) s1

/-- `Controller.animate`. -/
def Controller.animate (s : Controller) : Controller :=
  animateGo s.rainflakes.length 0 s

/-- `Controller.start`: no-op when already active; otherwise set the flag,
invoke `generate()`, and register the periodic tick
(`this.interval = setInterval(() => { this.animate(); }, 17)`).
`tickRegs` is ghost instrumentation counting live registrations. -/
def Controller.start (s : Controller) : Controller :=
  if s.active then s
  else
    let s1 := Controller.generateCall { s with active := true }
    { s1 with intervalLive := true, tickRegs := s1.tickRegs + 1 }

/-- The per-flake position update of `Controller.resize`: both styles are
shifted by the delta between the new dimensions and the stored snapshot
(which is only updated after the loop, so every flake sees the same delta). -/
def resizeFlakes (dw dh : ℚ) : List Flake → List Flake
  | [] => []
  | f :: fs => { f with left := f.left + dw, top := f.top + dh } :: resizeFlakes dw dh fs

/-- `Controller.resize(width, height)`: shift every flake by the dimension
delta, then update `this.document`. -/
def Controller.resize (s : Controller) (width height : ℚ) : Controller :=
  { s with
    rainflakes := resizeFlakes (width - s.docW) (height - s.docH) s.rainflakes
    docW := width
    docH := height }

/-- The two sources of asynchronous resumption: a firing of the periodic
interval, and the resumption of the pending delayed await of the `k`-th
in-flight `generate` loop. -/
inductive Event where
  | tick : Event
  | genResume : ℕ → Event
  deriving DecidableEq

/-- One event-loop resumption.  A `tick` runs `animate` only while the
interval registration is live (`clearInterval` removes pending firings).  A
`genResume k` resumes the `k`-th pending `generate` chain: it first checks
`if (!this.active) { return; }`, aborting the chain; otherwise it spawns,
increments the loop index and either suspends on the next randomized await or
exits the loop. -/
def stepEv (s : Controller) : Event → Controller
  | .tick => if s.intervalLive then Controller.animate s else s
  | .genResume k =>
    match s.gen[k]? with
    | none => s
    | some i =>
      if s.active then
        let s1 := Controller.spawn s
        { s1 with
          gen :=
            if i + 1 < s.config.LIMIT then s.gen.set k (i + 1) else s.gen.eraseIdx k }
      else { s with gen := s.gen.eraseIdx k }

/-- Run a sequence of event-loop resumptions. -/
def runEvents (s : Controller) (evs : List Event) : Controller :=
  evs.foldl stepEv s

/-!
## The pixel-string storage of positions

`rainflake` stores its position through strings: the setters run
`this.element.style.top = value + 'px'` and the getters run
`Number(this.element.style.top.replace('px', ''))`.  The model below embeds
this string level faithfully for every value a JavaScript number can hold:
strings are `List Char`, number-to-string conversion produces an
optional-sign decimal numeral with an optional fractional part, and `Number`
parses such numerals back (`String.prototype.replace` replaces the first
occurrence of the pattern).  Every finite double is exactly `m * 10^(-k)`
for some integer `m` and natural `k` — a binary fraction is a decimal
fraction — so a number value is represented by such a pair `(m, k)`; the
encoding below also covers non-canonical spellings (trailing fractional
zeros), a superset of the canonical shortest strings JavaScript prints.
-/

/-- The decimal digits of `n`, most significant first — the JavaScript
string conversion of a non-negative integer. -/
def natDigits (n : ℕ) : List Char :=
  if h : n < 10 then [Char.ofNat (48 + n)]
  else natDigits (n / 10) ++ [Char.ofNat (48 + n % 10)]
  decreasing_by exact Nat.div_lt_self (by omega) (by omega)

/-- The `-` character (written via its code point to keep the definition
self-contained). -/
def Char.hyphen : Char := Char.ofNat 45

/-- The characters of the pattern string `'px'`. -/
def pxSuffix : List Char := [Char.ofNat 112, Char.ofNat 120]

/-- The `.` character (written via its code point to keep the definition
self-contained). -/
def Char.dot : Char := Char.ofNat 46

/-- The digit string of the non-negative decimal `n / 10^k`: for `k = 0`
just the digits of `n`; otherwise the digits of `n`, left-padded with zeros
to at least `k + 1` characters, with the decimal point inserted `k` places
from the right (so `5 / 10^2` prints as `0.05` and `12345 / 10^2` as
`123.45`). -/
def decChars (n k : ℕ) : List Char :=
  if k = 0 then natDigits n
  else
    let ds := List.replicate (k + 1 - (natDigits n).length) (Char.ofNat 48) ++ natDigits n
    ds.take (ds.length - k) ++ Char.dot :: ds.drop (ds.length - k)

/-- JavaScript string conversion of the number `m / 10^k`: optional minus
sign followed by the decimal numeral of the absolute value.  Every finite
JavaScript number is of this form. -/
def jsNumChars (m : ℤ) (k : ℕ) : List Char :=
  (if m < 0 then [Char.hyphen] else []) ++ decChars m.natAbs k

/-- `value + 'px'`: the string stored into `style.top` / `style.left` for
the number `m / 10^k`. -/
def pxEncodeNum (m : ℤ) (k : ℕ) : List Char :=
  jsNumChars m k ++ pxSuffix

/-- Whether `pat` is an initial segment of `s` (the matching step of
`String.prototype.replace` at one position). -/
def leadsWith : List Char → List Char → Bool
  | [], _ => true
  | _ :: _, [] => false
  | p :: ps, c :: cs => p == c && leadsWith ps cs

/-- `s.replace(pat, rep)` for a string pattern: replace the first occurrence
of `pat` (if any) by `rep`. -/
def replaceFirstCs (pat rep : List Char) : List Char → List Char
  | [] => []
  | c :: cs =>
    if leadsWith pat (c :: cs) then rep ++ (c :: cs).drop pat.length
    else c :: replaceFirstCs pat rep cs

/-- Accumulating decimal parse of a digit string; `none` on a non-digit. -/
def parseDigitsAux : ℕ → List Char → Option ℕ
  | acc, [] => some acc
  | acc, c :: cs =>
    if 48 ≤ c.toNat ∧ c.toNat ≤ 57 then parseDigitsAux (acc * 10 + (c.toNat - 48)) cs
    else none

/-- Split a string at its first `.`: the part before it, and — when a dot
occurs — the part after it. -/
def splitAtDot : List Char → List Char × Option (List Char)
  | [] => ([], none)
  | c :: cs =>
    if c = Char.dot then ([], some cs)
    else
      let r := splitAtDot cs
      (c :: r.1, r.2)

/-- An unsigned decimal numeral with optional fractional part, as `Number`
accepts it: `digits`, `digits.digits`, `digits.` or `.digits` (a lone `.`
or any non-digit character is `NaN`, modelled as `none`).  The value of
`I.F` is `I + F / 10^|F|`. -/
def parseUnsigned (cs : List Char) : Option ℚ :=
  match splitAtDot cs with
  | (ics, none) => (parseDigitsAux 0 ics).map (fun n => (n : ℚ))
  | (ics, some fcs) =>
    if ics = [] ∧ fcs = [] then none
    else
      match parseDigitsAux 0 ics, parseDigitsAux 0 fcs with
      | some ip, some fp => some ((ip : ℚ) + (fp : ℚ) / (10 : ℚ) ^ fcs.length)
      | _, _ => none

/-- JavaScript `Number(s)` on optional-sign decimal numerals (the shapes the
position setters can store): `Number('')` is `0`, a bare `'-'` or any
non-numeral yields `NaN` (modelled as `none`). -/
def jsParseNumber : List Char → Option ℚ
  | [] => some 0
  | c :: cs =>
    if c == Char.hyphen then
      match cs with
      | [] => none
      | _ => (parseUnsigned cs).map (fun q => -q)
    else parseUnsigned (c :: cs)

/-- The string-level position storage of one `rainflake` element:
`style.top` and `style.left`. -/
structure FlakeStyle where
  top : List Char
  left : List Char
  deriving DecidableEq

/-- `set top(value) { this.element.style.top = value + 'px'; }` for the
number value `m / 10^k`. -/
def setTopStyle (e : FlakeStyle) (m : ℤ) (k : ℕ) : FlakeStyle :=
  { e with top := pxEncodeNum m k }

/-- `get top() { return Number(this.element.style.top.replace('px', '')); }`. -/
def getTopStyle (e : FlakeStyle) : Option ℚ :=
  jsParseNumber (replaceFirstCs pxSuffix [] e.top)

/-- `set left(value) { this.element.style.left = value + 'px'; }` for the
number value `m / 10^k`. -/
def setLeftStyle (e : FlakeStyle) (m : ℤ) (k : ℕ) : FlakeStyle :=
  { e with left := pxEncodeNum m k }

/-- `get left() { return Number(this.element.style.left.replace('px', '')); }`. -/
def getLeftStyle (e : FlakeStyle) : Option ℚ :=
  jsParseNumber (replaceFirstCs pxSuffix [] e.left)

/-!
## The command dispatcher

`aSocketrain.command(cmd)` reads `aSocketrain.controllers[0][cmd]`; when that
property is falsy the call returns, otherwise it runs `controller[cmd]()` on
every controller.  The property lookup is modelled over the actual shape of a
`Controller` instance: its own data properties (`body`, `config`,
`rainflakes`, `document`, `active`, `interval`) and the `Controller.prototype`
methods (`constructor`, `start`, `spawn`, `generate`, `animate`, `remove`,
`clear`, `stop`, `resize`).  Properties inherited from `Object.prototype`
(such as `toString`) are not modelled.  `active` is truthy exactly when the
flag is `true`; `interval` is truthy exactly when a registration is live
(before the first `start` it is `undefined`, after `stop` it is `null`, both
falsy).
-/

/-- The methods of `Controller.prototype`. -/
inductive JsMethod where
  | ctor : JsMethod
  | start : JsMethod
  | spawn : JsMethod
  | generate : JsMethod
  | animate : JsMethod
  | remove : JsMethod
  | clear : JsMethod
  | stop : JsMethod
  | resize : JsMethod
  deriving DecidableEq

/-- What a JavaScript property access `controller[name]` yields, to the
granularity the dispatcher needs: absent (`undefined`), a truthy or falsy
non-callable value, or a callable method. -/
inductive JsProp where
  | absent : JsProp
  | dataTruthy : JsProp
  | dataFalsy : JsProp
  | method : JsMethod → JsProp
  deriving DecidableEq

/-- `controller[name]` for a `Controller` instance `s`. -/
def getProp (s : Controller) (name : String) : JsProp :=
  if name = "body" then .dataTruthy
  else if name = "config" then .dataTruthy
  else if name = "rainflakes" then .dataTruthy
  else if name = "document" then .dataTruthy
  else if name = "active" then (if s.active then .dataTruthy else .dataFalsy)
  else if name = "interval" then (if s.intervalLive then .dataTruthy else .dataFalsy)
  else if name = "constructor" then .method .ctor
  else if name = "start" then .method .start
  else if name = "spawn" then .method .spawn
  else if name = "generate" then .method .generate
  else if name = "animate" then .method .animate
  else if name = "remove" then .method .remove
  else if name = "clear" then .method .clear
  else if name = "stop" then .method .stop
  else if name = "resize" then .method .resize
  else .absent

/-- JavaScript truthiness of a property value. -/
def truthyProp : JsProp → Bool
  | .absent => false
  | .dataFalsy => false
  | .dataTruthy => true
  | .method _ => true

/-- Result of invoking one method with zero arguments. -/
inductive CallRes where
  | ok : Controller → CallRes
  | thrown : Controller → CallRes
  | unmodelled : CallRes
  deriving DecidableEq

/-- `controller[cmd]()`: invoke one `Controller.prototype` method with zero
arguments.  `constructor` throws (a class constructor cannot be invoked
without `new`).  `remove` with `rainflake = undefined` runs
`indexOf(undefined)`, which is `-1`, so `splice(-1, 1)` deletes the last pool
element, and then `undefined.element` throws a `TypeError`.  `resize` with
both dimensions `undefined` sets every position to `NaN`, which is outside
the exact numeric model. -/
def call0 (m : JsMethod) (s : Controller) : CallRes :=
  match m with
  | .ctor => .thrown s
  | .start => .ok (Controller.start s)
  | .spawn => .ok (Controller.spawn s)
  | .generate => .ok (Controller.generateCall s)
  | .animate => .ok (Controller.animate s)
  | .remove => .thrown { s with rainflakes := s.rainflakes.dropLast }
  | .clear => .ok (Controller.clear s)
  | .stop => .ok (Controller.stop s)
  | .resize => .unmodelled

/-- Outcome of a dispatched command over the controller list: normal
completion, a thrown `TypeError` (with the controllers' states at the throw),
or an invocation outside the numeric model. -/
inductive CmdOutcome where
  | ok : List Controller → CmdOutcome
  | thrown : List Controller → CmdOutcome
  | unmodelled : CmdOutcome
  deriving DecidableEq

/-- The `for (const controller of aSocketrain.controllers) { controller[cmd](); }`
loop.  A non-callable property throws a `TypeError` before mutating that
controller; a throw aborts the loop, leaving the remaining controllers
untouched. -/
def commandGo (cmd : String) : List Controller → List Controller → CmdOutcome
  | [], acc => .ok acc.reverse
  | c :: rest, acc =>
    match getProp c cmd with
    | .method m =>
      match call0 m c with
      | .ok c' => commandGo cmd rest (c' :: acc)
      | .thrown c' => .thrown (acc.reverse ++ c' :: rest)
      | .unmodelled => .unmodelled
    | _ => .thrown (acc.reverse ++ c :: rest)

/-- `aSocketrain.command(cmd)`.  On an empty controller list,
`controllers[0]` is `undefined` and the guard's property access itself
throws; otherwise a falsy `controllers[0][cmd]` returns at once. -/
def command (cs : List Controller) (cmd : String) : CmdOutcome :=
  match cs with
  | [] => .thrown []
  | c0 :: _ => if truthyProp (getProp c0 cmd) then commandGo cmd cs [] else .ok cs

/-!
## Concrete states for counterexamples and witnesses
-/

/-- The layer configuration of the C3 scenario: `{limit: 1, blur: 0, fallRate: 100, swayRate: 0}`. -/
def cfgScene3 : Config := ⟨1, 0, 100, 0⟩

/-- The C3 scenario: viewport 100x100, one flake at y = 0. -/
def scene3 : Controller :=
  { config := cfgScene3
    rainflakes := [⟨0, 20, 0, 0⟩]
    docW := 100
    docH := 100
    active := true
    intervalLive := true
    gen := []
    dom := {0}
    nextId := 1
    rng := []
    tickRegs := 1
    genCalls := 1 }

/-- A controller whose pool already exceeds its limit (`LIMIT = 1`, two
flakes, as two dispatched `spawn` commands produce), not yet started. -/
def overfull : Controller :=
  { config := ⟨1, 0, 1, 0⟩
    rainflakes := [⟨0, 10, 0, 0⟩, ⟨1, 20, 0, 0⟩]
    docW := 100
    docH := 100
    active := false
    intervalLive := false
    gen := []
    dom := {0, 1}
    nextId := 2
    rng := []
    tickRegs := 0
    genCalls := 0 }

/-- A running controller holding one flake whose box sticks out past the
right viewport edge (left 102, viewport width 100) but not past the code's
`width + box width` threshold. -/
def sceneEdge : Controller :=
  { config := ⟨1, 0, 1, 0⟩
    rainflakes := [⟨0, 102, 0, 0⟩]
    docW := 100
    docH := 100
    active := true
    intervalLive := true
    gen := []
    dom := {0}
    nextId := 1
    rng := []
    tickRegs := 1
    genCalls := 1 }

/-- A running controller holding one flake far below the viewport, which one
tick removes and replaces. -/
def sceneDeep : Controller :=
  { config := ⟨1, 0, 1, 0⟩
    rainflakes := [⟨0, 50, 150, 0⟩]
    docW := 100
    docH := 100
    active := true
    intervalLive := true
    gen := []
    dom := {0}
    nextId := 1
    rng := []
    tickRegs := 1
    genCalls := 1 }

/-- A small stopped-or-running generic controller used to instantiate
universally quantified theorems. -/
def sceneSmall : Controller :=
  { config := ⟨2, 0, 1, 0⟩
    rainflakes := [⟨0, 1, 2, 0⟩]
    docW := 100
    docH := 100
    active := false
    intervalLive := false
    gen := []
    dom := {0}
    nextId := 1
    rng := []
    tickRegs := 0
    genCalls := 0 }

/-- The ghost identities of the pooled flakes, in pool order. -/
def flakeIds (l : List Flake) : List ℕ :=
  l.map Flake.id

/-- Well-formedness of the ghost identities: pooled flakes are pairwise
distinct objects and the freshness counter is ahead of every pooled id.
Every state reachable from a freshly constructed controller satisfies this,
since ids are handed out by the incrementing counter. -/
def WfIds (s : Controller) : Prop :=
  (flakeIds s.rainflakes).Nodup ∧ ∀ g ∈ s.rainflakes, g.id < s.nextId

instance : DecidablePred WfIds := fun s => by
  unfold WfIds
  infer_instance

/-- The population invariant maintained by `generate`/`animate` interleaving:
the pool is within the layer limit, at most one `generate` loop is in flight,
and a pending loop's index equals the current pool size and is below the
limit — exactly the state `start`'s `generate()` call sets up when the pool
does not already exceed the limit. -/
def PoolInv (s : Controller) : Prop :=
  s.rainflakes.length ≤ s.config.LIMIT ∧
  s.gen.length ≤ 1 ∧
  ∀ i ∈ s.gen, s.rainflakes.length = i ∧ i < s.config.LIMIT

instance : DecidablePred PoolInv := fun s => by
  unfold PoolInv
  infer_instance

/-!
## Helper lemmas
-/

theorem resizeFlakes_getElem? (dw dh : ℚ) (l : List Flake) (i : ℕ) :
    (resizeFlakes dw dh l)[i]? =
      l[i]?.map (fun f => { f with left := f.left + dw, top := f.top + dh }) := by
  induction l generalizing i with
  | nil => simp [resizeFlakes]
  | cons f fs ih =>
    cases i with
    | zero => simp [resizeFlakes]
    | succ i => simpa [resizeFlakes] using ih i

theorem notMem_foldl_erase (x : ℕ) :
    ∀ (l : List Flake) (d : Finset ℕ), x ∉ d → x ∉ l.foldl (fun d f => d.erase f.id) d
  | [], _, h => by simpa using h
  | f :: fs, d, h => by
    simp only [List.foldl_cons]
    exact notMem_foldl_erase x fs _ (fun hx => h (Finset.mem_of_mem_erase hx))

theorem mem_notMem_foldl_erase (f : Flake) :
    ∀ (l : List Flake) (d : Finset ℕ), f ∈ l → f.id ∉ l.foldl (fun d f => d.erase f.id) d
  | [], _, h => by cases h
  | g :: gs, d, h => by
    simp only [List.foldl_cons]
    rcases List.mem_cons.mp h with h | h
    · subst h
      exact notMem_foldl_erase _ _ _ (Finset.not_mem_erase _ _)
    · exact mem_notMem_foldl_erase f gs _ h

theorem flakeIdx_eq_none (fid : ℕ) (l : List Flake) (h : fid ∉ flakeIds l) :
    flakeIdx fid l = none := by
  induction l with
  | nil => rfl
  | cons f fs ih =>
    simp only [flakeIds, List.map_cons, List.mem_cons, not_or] at h
    have hne : ¬f.id = fid := fun he => h.1 he.symm
    simp [flakeIdx, hne, ih (by simpa [flakeIds] using h.2)]

/-!
## C4 — resize is a pure additive translation
-/

/-- C4: for every particle at position (x, y) and every prior viewport
(w1, h1), `resize(w2, h2)` sets that particle's position to exactly
(x + (w2-w1), y + (h2-h1)) — a pure additive translation, not a rescale —
and afterwards updates the stored viewport snapshot to (w2, h2). -/
theorem resize_translates (s : Controller) (w2 h2 : ℚ) (i : ℕ) (f : Flake)
    (h : s.rainflakes[i]? = some f) :
    (Controller.resize s w2 h2).rainflakes[i]? =
        some ⟨f.id, f.left + (w2 - s.docW), f.top + (h2 - s.docH), f.blur⟩ ∧
      (Controller.resize s w2 h2).docW = w2 ∧ (Controller.resize s w2 h2).docH = h2 := by
  refine ⟨?_, rfl, rfl⟩
  show (resizeFlakes (w2 - s.docW) (h2 - s.docH) s.rainflakes)[i]? = _
  rw [resizeFlakes_getElem?, h]
  rfl

/-- Witness for `resize_translates` at a concrete controller: the flake at
(1, 2) under viewport 100x100 moves to (51, -18) under `resize(150, 80)`. -/
theorem resize_translates_witness :
    sceneSmall.rainflakes[0]? = some ⟨0, 1, 2, 0⟩ ∧
      (Controller.resize sceneSmall 150 80).rainflakes[0]? = some ⟨0, 51, -18, 0⟩ ∧
      (Controller.resize sceneSmall 150 80).docW = 150 ∧
      (Controller.resize sceneSmall 150 80).docH = 80 := by
  have h := resize_translates sceneSmall 150 80 0 ⟨0, 1, 2, 0⟩ (by decide)
  refine ⟨by decide, ?_, h.2.1, h.2.2⟩
  rw [h.1]
  norm_num [sceneSmall]

/-!
## C7 — clear empties the pool and detaches every handle
-/

/-- C7: for every prior pool state (including an empty pool), `clear()`
leaves the pool empty and every previously pooled particle's visual handle
detached from the container (all handles are detached first, then the
collection is reset in one step). -/
theorem clear_empties (s : Controller) :
    (Controller.clear s).rainflakes = [] ∧
      ∀ f ∈ s.rainflakes, f.id ∉ (Controller.clear s).dom := by
  refine ⟨rfl, fun f hf => ?_⟩
  exact mem_notMem_foldl_erase f s.rainflakes s.dom hf

/-- Witness for `clear_empties` at a concrete controller holding one flake. -/
theorem clear_empties_witness :
    (Controller.clear sceneDeep).rainflakes = [] ∧
      (⟨0, 50, 150, 0⟩ : Flake) ∈ sceneDeep.rainflakes ∧
      (0 : ℕ) ∉ (Controller.clear sceneDeep).dom :=
  ⟨(clear_empties sceneDeep).1, by decide,
    (clear_empties sceneDeep).2 ⟨0, 50, 150, 0⟩ (by decide)⟩

/-!
## C9 — remove on a foreign particle
-/

/-- C9: for every particle that is NOT present in a controller's pool,
`remove(p)` detaches p's visual handle and, when the pool is non-empty,
deletes the pool's last element (whose own visual handle stays attached);
when the pool is empty it deletes nothing — a consequence of `indexOf`
returning -1 and `splice(-1, 1)` targeting the last element. -/
theorem remove_foreign (s : Controller) (fid : ℕ) (h : fid ∉ flakeIds s.rainflakes) :
    (Controller.remove s fid).rainflakes = s.rainflakes.dropLast ∧
      fid ∉ (Controller.remove s fid).dom ∧
      ∀ f ∈ s.rainflakes, f.id ∈ s.dom → f.id ∈ (Controller.remove s fid).dom := by
  refine ⟨?_, Finset.not_mem_erase _ _, fun f hf hdom => ?_⟩
  · show spliceOneAt s.rainflakes (flakeIdx fid s.rainflakes) = _
    rw [flakeIdx_eq_none fid s.rainflakes h]
    rfl
  · refine Finset.mem_erase_of_ne_of_mem (fun he => h ?_) hdom
    exact he ▸ List.mem_map_of_mem Flake.id hf

/-- Witness for `remove_foreign`: removing a particle with the foreign id 99
from a one-flake pool drops the pooled flake from the pool while its own
handle stays attached. -/
theorem remove_foreign_witness :
    (99 : ℕ) ∉ flakeIds sceneSmall.rainflakes ∧
      (Controller.remove sceneSmall 99).rainflakes = [] ∧
      (99 : ℕ) ∉ (Controller.remove sceneSmall 99).dom ∧
      (0 : ℕ) ∈ (Controller.remove sceneSmall 99).dom := by
  have h := remove_foreign sceneSmall 99 (by decide)
  exact ⟨by decide, h.1, h.2.1, h.2.2 ⟨0, 1, 2, 0⟩ (by decide) (by decide)⟩

/-!
## C6 — start is idempotent
-/

/-- C6: `start()` is idempotent — calling it twice in succession without an
intervening `stop()` yields exactly the state of a single call, and from a
freshly stopped state with no registrations one call leaves exactly one
active periodic tick registration and exactly one `generate` schedule (the
second call is a no-op because the controller is already active). -/
theorem start_idempotent (s : Controller) :
    Controller.start (Controller.start s) = Controller.start s ∧
      (s.active = false → s.tickRegs = 0 → s.genCalls = 0 →
        (Controller.start s).tickRegs = 1 ∧ (Controller.start s).genCalls = 1 ∧
          (Controller.start s).gen.length ≤ s.gen.length + 1) := by
  constructor
  · cases h : s.active with
    | true => simp [Controller.start, h]
    | false => simp [Controller.start, Controller.generateCall, h]
  · intro ha ht hg
    simp only [Controller.start, Controller.generateCall, ha, Bool.false_eq_true, if_false]
    refine ⟨by simpa using ht ▸ rfl, by simpa using hg ▸ rfl, ?_⟩
    by_cases hl : s.rainflakes.length < s.config.LIMIT <;> simp [hl]

/-- Witness for `start_idempotent` at a concrete stopped controller. -/
theorem start_idempotent_witness :
    Controller.start (Controller.start sceneSmall) = Controller.start sceneSmall ∧
      (Controller.start sceneSmall).tickRegs = 1 ∧
      (Controller.start sceneSmall).genCalls = 1 := by
  have h := start_idempotent sceneSmall
  have h2 := h.2 (by decide) (by decide) (by decide)
  exact ⟨h.1, h2.1, h2.2.1⟩

/-!
## C5 — stop freezes the pool
-/

theorem stepEv_frozen (s : Controller) (e : Event)
    (ha : s.active = false) (hi : s.intervalLive = false) :
    (stepEv s e).rainflakes = s.rainflakes ∧ (stepEv s e).active = false ∧
      (stepEv s e).intervalLive = false := by
  cases e with
  | tick => simp [stepEv, hi, ha]
  | genResume k =>
    cases hk : s.gen[k]? with
    | none => simp [stepEv, hk, ha, hi]
    | some i => simp [stepEv, hk, ha, hi]

theorem runEvents_frozen :
    ∀ (evs : List Event) (s : Controller), s.active = false → s.intervalLive = false →
      (runEvents s evs).rainflakes = s.rainflakes
  | [], _, _, _ => rfl
  | e :: evs, s, ha, hi => by
    have h := stepEv_frozen s e ha hi
    show (runEvents (stepEv s e) evs).rainflakes = s.rainflakes
    rw [runEvents_frozen evs (stepEv s e) h.2.1 h.2.2, h.1]

/-- C5: after `stop()` is called, no subsequently elapsed time changes the
pool size or any particle's position — the periodic tick is deregistered so
`animate` never fires again, and any in-flight `generate` loop finds the
`active` flag false after its pending delay and aborts before spawning.  Any
sequence of event-loop resumptions leaves the pool (hence its size and all
positions) exactly as `stop` left it. -/
theorem stop_freezes (s : Controller) (evs : List Event) :
    (runEvents (Controller.stop s) evs).rainflakes = s.rainflakes := by
  have h : (Controller.stop s).rainflakes = s.rainflakes := rfl
  rw [runEvents_frozen evs (Controller.stop s) rfl rfl, h]

/-!
## C8 — the command dispatcher
-/

theorem commandGo_maps (cmd : String) (m : JsMethod) (f : Controller → Controller)
    (hprop : ∀ c, getProp c cmd = .method m)
    (hcall : ∀ c, call0 m c = .ok (f c)) :
    ∀ (cs acc : List Controller), commandGo cmd cs acc = .ok (acc.reverse ++ cs.map f)
  | [], acc => by simp [commandGo]
  | c :: rest, acc => by
    rw [commandGo, hprop c]
    dsimp only
    rw [hcall c]
    dsimp only
    rw [commandGo_maps cmd m f hprop hcall rest (f c :: acc)]
    simp

/-- C8 (amended): a command name whose property on the first controller is
absent or falsy is silently ignored — no controller changes, no error; a
name bound to one of the zero-argument operations `start`, `stop`, `spawn`,
`clear` invokes that operation on every controller.  (A name bound to a
truthy non-callable property, such as `config`, instead throws — see the
counterexample.) -/
theorem command_dispatch :
    (∀ (c0 : Controller) (rest : List Controller) (cmd : String),
        truthyProp (getProp c0 cmd) = false → command (c0 :: rest) cmd = .ok (c0 :: rest)) ∧
      ∀ (c0 : Controller) (rest : List Controller),
        command (c0 :: rest) "start" = .ok ((c0 :: rest).map Controller.start) ∧
          command (c0 :: rest) "stop" = .ok ((c0 :: rest).map Controller.stop) ∧
          command (c0 :: rest) "spawn" = .ok ((c0 :: rest).map Controller.spawn) ∧
          command (c0 :: rest) "clear" = .ok ((c0 :: rest).map Controller.clear) := by
  constructor
  · intro c0 rest cmd h
    simp [command, h]
  · intro c0 rest
    refine ⟨?_, ?_, ?_, ?_⟩
    · simpa [command] using
        commandGo_maps "start" JsMethod.start Controller.start (fun c => rfl) (fun c => rfl)
          (c0 :: rest) []
    · simpa [command] using
        commandGo_maps "stop" JsMethod.stop Controller.stop (fun c => rfl) (fun c => rfl)
          (c0 :: rest) []
    · simpa [command] using
        commandGo_maps "spawn" JsMethod.spawn Controller.spawn (fun c => rfl) (fun c => rfl)
          (c0 :: rest) []
    · simpa [command] using
        commandGo_maps "clear" JsMethod.clear Controller.clear (fun c => rfl) (fun c => rfl)
          (c0 :: rest) []

/-- C8 counterexample: `"config"` names a property that is not an operation,
yet the dispatcher is not a silent no-op on it — `controllers[0]['config']`
is a truthy object, so the guard passes and `controller['config']()` throws a
`TypeError`, contradicting the claim that every command name not naming an
operation is ignored without an error. -/
theorem command_config_thrown :
    getProp sceneSmall "config" = JsProp.dataTruthy ∧
      command [sceneSmall] "config" = CmdOutcome.thrown [sceneSmall] ∧
      command [sceneSmall] "config" ≠ CmdOutcome.ok [sceneSmall] := by
  refine ⟨rfl, rfl, ?_⟩
  decide

/-- Witness for `command_dispatch`: an unrecognized name is ignored, and
`"clear"` runs `clear` on every controller. -/
theorem command_dispatch_witness :
    truthyProp (getProp sceneSmall "wobble") = false ∧
      command [sceneSmall] "wobble" = CmdOutcome.ok [sceneSmall] ∧
      command [sceneSmall] "clear" = CmdOutcome.ok [Controller.clear sceneSmall] :=
  ⟨rfl, command_dispatch.1 sceneSmall [] "wobble" rfl,
    (command_dispatch.2 sceneSmall []).2.2.2⟩

/-!
## C3 — the limit-1 / fallRate-100 scenario
-/

theorem scene3_one_tick :
    stepEv scene3 Event.tick = { scene3 with rainflakes := [⟨0, 20, 100, 0⟩] } := by
  simp [stepEv, scene3, Controller.animate, animateGo, fallStep, oobCheck, rainflakeBounds,
    flakeWidth, flakeHeight, cfgScene3]
  norm_num

/-- C3 counterexample: with config `{limit: 1, blur: 0, fallRate: 100, swayRate: 0}`
and viewport 100x100, one `animate` tick takes the particle from y = 0 to
y = 100 — but the particle is NOT recycled within that tick (its bottom edge
100 + 30 does not exceed viewport height + particle height = 130): the same
particle (id 0) survives with y = 100, not a replacement reset to y = 0. -/
theorem scene3_not_recycled_first_tick :
    (stepEv scene3 Event.tick).rainflakes = [⟨0, 20, 100, 0⟩] ∧
      flakeIds (stepEv scene3 Event.tick).rainflakes = flakeIds scene3.rainflakes ∧
      ¬((stepEv scene3 Event.tick).rainflakes.map Flake.top = [0]) := by
  rw [scene3_one_tick]
  refine ⟨rfl, rfl, ?_⟩
  simp [scene3]

/-- C3 (amended): in the scenario `{limit: 1, blur: 0, fallRate: 100, swayRate: 0}`,
viewport 100x100, particle at y = 0: after one `animate` tick y = 100 and the
particle survives un-recycled, since its position does not yet exceed
viewport height + particle height = 130; on the second tick y reaches 200 >
130, so the particle is recycled within that tick — the pool size stays 1
and the replacement particle starts at y = 0. -/
theorem scene3_recycle_second_tick :
    (stepEv scene3 Event.tick).rainflakes = [⟨0, 20, 100, 0⟩] ∧
      oobCheck 100 100 ⟨0, 20, 100, 0⟩ = false ∧
      (stepEv (stepEv scene3 Event.tick) Event.tick).rainflakes = [⟨1, 0, 0, 0⟩] ∧
      (stepEv (stepEv scene3 Event.tick) Event.tick).rainflakes.length = 1 := by
  have h2 :
      stepEv { scene3 with rainflakes := [⟨0, 20, 100, 0⟩] } Event.tick =
        { scene3 with rainflakes := [⟨1, 0, 0, 0⟩], dom := {1}, nextId := 2 } := by
    simp [stepEv, scene3, Controller.animate, animateGo, fallStep, oobCheck, rainflakeBounds,
      flakeWidth, flakeHeight, cfgScene3, Controller.remove, Controller.spawn, flakeIdx,
      spliceOneAt]
    norm_num
  rw [scene3_one_tick, h2]
  refine ⟨rfl, ?_, rfl, rfl⟩
  simp [oobCheck, rainflakeBounds, flakeWidth, flakeHeight]
  norm_num

/-!
## C10 — the pixel-string round-trip
-/

theorem natDigits_sandwich (n : ℕ) :
    ∀ c ∈ natDigits n, 48 ≤ c.toNat ∧ c.toNat ≤ 57 := by
  induction n using Nat.strong_induction_on with
  | _ n ih =>
    rw [natDigits]
    by_cases h : n < 10
    · simp only [h, dif_pos, List.mem_singleton]
      rintro c rfl
      interval_cases n <;> decide
    · simp only [h, dif_neg, not_false_iff, List.mem_append, List.mem_singleton]
      rintro c (hc | rfl)
      · exact ih (n / 10) (Nat.div_lt_self (by omega) (by omega)) c hc
      · have hm : n % 10 < 10 := Nat.mod_lt _ (by omega)
        set m := n % 10 with hmdef
        clear_value m
        interval_cases m <;> decide

theorem natDigits_ne_nil (n : ℕ) : natDigits n ≠ [] := by
  rw [natDigits]
  by_cases h : n < 10 <;> simp [h]

theorem parseDigitsAux_append (xs ys : List Char) :
    ∀ acc, parseDigitsAux acc (xs ++ ys) =
      (parseDigitsAux acc xs).bind (fun m => parseDigitsAux m ys) := by
  induction xs with
  | nil => intro acc; rfl
  | cons c cs ih =>
    intro acc
    by_cases h : 48 ≤ c.toNat ∧ c.toNat ≤ 57
    · simp only [List.cons_append, parseDigitsAux, h, if_pos]
      exact ih _
    · simp [parseDigitsAux, h]

theorem parseDigitsAux_natDigits (n : ℕ) :
    ∀ acc, parseDigitsAux acc (natDigits n) = some (acc * 10 ^ (natDigits n).length + n) := by
  induction n using Nat.strong_induction_on with
  | _ n ih =>
    intro acc
    rw [natDigits]
    by_cases h : n < 10
    · have hc : (Char.ofNat (48 + n)).toNat = 48 + n := by interval_cases n <;> decide
      simp only [h, dif_pos]
      simp [parseDigitsAux, hc, Nat.le_add_right]
      omega
    · have hm : n % 10 < 10 := Nat.mod_lt _ (by omega)
      have hc : (Char.ofNat (48 + n % 10)).toNat = 48 + n % 10 := by
        set m := n % 10 with hmdef
        clear_value m
        interval_cases m <;> decide
      simp only [h, dif_neg, not_false_iff]
      rw [parseDigitsAux_append, ih (n / 10) (Nat.div_lt_self (by omega) (by omega)) acc]
      simp only [Option.some_bind, parseDigitsAux, hc]
      have : (48 : ℕ) ≤ 48 + n % 10 ∧ 48 + n % 10 ≤ 57 := by omega
      rw [if_pos this]
      congr 1
      simp only [List.length_append, List.length_singleton]
      rw [pow_succ]
      have hdm : n / 10 * 10 + n % 10 = n := by omega
      ring_nf
      omega

theorem replaceFirstCs_strip (ds : List Char) (h : ∀ c ∈ ds, c.toNat ≠ 112) :
    replaceFirstCs pxSuffix [] (ds ++ pxSuffix) = ds := by
  induction ds with
  | nil => rfl
  | cons c cs ih =>
    have hc : leadsWith pxSuffix (c :: (cs ++ pxSuffix)) = false := by
      have : (Char.ofNat 112 == c) = false := by
        refine beq_eq_false_iff_ne.mpr (fun he => h c (List.mem_cons_self c cs) ?_)
        rw [← he]
        rfl
      simp [pxSuffix, leadsWith, this]
    simp only [List.cons_append, replaceFirstCs, List.append_eq, hc, Bool.false_eq_true,
      if_false]
    rw [ih (fun d hd => h d (List.mem_cons_of_mem c hd))]

theorem parseDigitsAux_of_digits :
    ∀ cs : List Char, (∀ c ∈ cs, 48 ≤ c.toNat ∧ c.toNat ≤ 57) →
      ∃ v, parseDigitsAux 0 cs = some v ∧
        ∀ acc, parseDigitsAux acc cs = some (acc * 10 ^ cs.length + v)
  | [], _ => ⟨0, rfl, fun acc => by simp [parseDigitsAux]⟩
  | c :: cs, h => by
    have hc := h c (List.mem_cons_self c cs)
    obtain ⟨v, hv0, hvacc⟩ :=
      parseDigitsAux_of_digits cs (fun d hd => h d (List.mem_cons_of_mem c hd))
    have hstep : ∀ a, parseDigitsAux a (c :: cs) =
        parseDigitsAux (a * 10 + (c.toNat - 48)) cs := by
      intro a
      show (if 48 ≤ c.toNat ∧ c.toNat ≤ 57 then
          parseDigitsAux (a * 10 + (c.toNat - 48)) cs else none) = _
      rw [if_pos hc]
    refine ⟨(c.toNat - 48) * 10 ^ cs.length + v, ?_, ?_⟩
    · rw [hstep 0, hvacc]
      congr 1
      have h0 : 0 * 10 + (c.toNat - 48) = c.toNat - 48 := by omega
      rw [h0]
    · intro acc
      rw [hstep acc, hvacc]
      congr 1
      simp only [List.length_cons, pow_succ]
      ring

theorem parseDigitsAux_zeros :
    ∀ z : ℕ, parseDigitsAux 0 (List.replicate z (Char.ofNat 48)) = some 0
  | 0 => rfl
  | z + 1 => by
    have hc : (48 : ℕ) ≤ (Char.ofNat 48).toNat ∧ (Char.ofNat 48).toNat ≤ 57 := by decide
    show (if (48 : ℕ) ≤ (Char.ofNat 48).toNat ∧ (Char.ofNat 48).toNat ≤ 57 then
        parseDigitsAux (0 * 10 + ((Char.ofNat 48).toNat - 48))
          (List.replicate z (Char.ofNat 48)) else none) = some 0
    rw [if_pos hc]
    have h0 : 0 * 10 + ((Char.ofNat 48).toNat - 48) = 0 := by decide
    rw [h0]
    exact parseDigitsAux_zeros z

theorem splitAtDot_no_dot :
    ∀ cs : List Char, (∀ c ∈ cs, ¬c = Char.dot) → splitAtDot cs = (cs, none)
  | [], _ => rfl
  | c :: cs, h => by
    have hc : ¬c = Char.dot := h c (List.mem_cons_self c cs)
    simp [splitAtDot, hc, splitAtDot_no_dot cs (fun d hd => h d (List.mem_cons_of_mem c hd))]

theorem splitAtDot_append_dot :
    ∀ I F : List Char, (∀ c ∈ I, ¬c = Char.dot) →
      splitAtDot (I ++ Char.dot :: F) = (I, some F)
  | [], F, _ => by simp [splitAtDot]
  | c :: I, F, h => by
    have hc : ¬c = Char.dot := h c (List.mem_cons_self c I)
    simp [splitAtDot, hc,
      splitAtDot_append_dot I F (fun d hd => h d (List.mem_cons_of_mem c hd))]

theorem decChars_frac (n k : ℕ) (hk : k ≠ 0) :
    ∃ (I F : List Char) (ip fp : ℕ),
      decChars n k = I ++ Char.dot :: F ∧
      (∀ c ∈ I ++ F, 48 ≤ c.toNat ∧ c.toNat ≤ 57) ∧
      I ≠ [] ∧ F.length = k ∧
      parseDigitsAux 0 I = some ip ∧ parseDigitsAux 0 F = some fp ∧
      ip * 10 ^ k + fp = n := by
  set ds := List.replicate (k + 1 - (natDigits n).length) (Char.ofNat 48) ++ natDigits n
    with hds
  have hdsdig : ∀ c ∈ ds, 48 ≤ c.toNat ∧ c.toNat ≤ 57 := by
    intro c hc
    rw [hds] at hc
    rcases List.mem_append.mp hc with hc | hc
    · have hrep := List.eq_of_mem_replicate hc
      subst hrep
      decide
    · exact natDigits_sandwich n c hc
  have hdslen : k + 1 ≤ ds.length := by
    rw [hds]
    simp only [List.length_append, List.length_replicate]
    omega
  have hdsparse : parseDigitsAux 0 ds = some n := by
    rw [hds, parseDigitsAux_append, parseDigitsAux_zeros]
    simp only [Option.some_bind]
    rw [parseDigitsAux_natDigits n 0]
    simp
  have hIF : ds.take (ds.length - k) ++ ds.drop (ds.length - k) = ds :=
    List.take_append_drop _ _
  have hIdig : ∀ c ∈ ds.take (ds.length - k), 48 ≤ c.toNat ∧ c.toNat ≤ 57 :=
    fun c hc => hdsdig c (List.mem_of_mem_take hc)
  have hFdig : ∀ c ∈ ds.drop (ds.length - k), 48 ≤ c.toNat ∧ c.toNat ≤ 57 :=
    fun c hc => hdsdig c (List.mem_of_mem_drop hc)
  obtain ⟨ip, hip0, hipacc⟩ := parseDigitsAux_of_digits _ hIdig
  obtain ⟨fp, hfp0, hfpacc⟩ := parseDigitsAux_of_digits _ hFdig
  have hFlen : (ds.drop (ds.length - k)).length = k := by
    simp only [List.length_drop]
    omega
  have hIlen : (ds.take (ds.length - k)).length = ds.length - k := by
    simp only [List.length_take]
    omega
  have hIne : ds.take (ds.length - k) ≠ [] := by
    intro hnil
    rw [hnil] at hIlen
    simp only [List.length_nil] at hIlen
    omega
  have hrel : ip * 10 ^ k + fp = n := by
    have h1 : parseDigitsAux 0 (ds.take (ds.length - k) ++ ds.drop (ds.length - k)) =
        some n := by
      rw [hIF]
      exact hdsparse
    rw [parseDigitsAux_append, hip0] at h1
    simp only [Option.some_bind] at h1
    rw [hfpacc ip, hFlen] at h1
    simpa using h1
  refine ⟨ds.take (ds.length - k), ds.drop (ds.length - k), ip, fp, ?_, ?_, hIne, hFlen,
    hip0, hfp0, hrel⟩
  · show decChars n k = _
    rw [decChars, if_neg hk]
  · intro c hc
    rcases List.mem_append.mp hc with hc | hc
    · exact hIdig c hc
    · exact hFdig c hc

theorem decChars_chars (n k : ℕ) :
    ∀ c ∈ decChars n k, c.toNat = 46 ∨ (48 ≤ c.toNat ∧ c.toNat ≤ 57) := by
  intro c hc
  by_cases hk : k = 0
  · subst hk
    rw [decChars, if_pos rfl] at hc
    exact Or.inr (natDigits_sandwich n c hc)
  · obtain ⟨I, F, ip, fp, hdc, hdig, _⟩ := decChars_frac n k hk
    rw [hdc] at hc
    rcases List.mem_append.mp hc with hc | hc
    · exact Or.inr (hdig c (List.mem_append_left _ hc))
    · rcases List.mem_cons.mp hc with rfl | hc
      · exact Or.inl (by decide)
      · exact Or.inr (hdig c (List.mem_append_right _ hc))

theorem decChars_ne_nil (n k : ℕ) : decChars n k ≠ [] := by
  by_cases hk : k = 0
  · subst hk
    rw [decChars, if_pos rfl]
    exact natDigits_ne_nil n
  · obtain ⟨I, F, ip, fp, hdc, _⟩ := decChars_frac n k hk
    rw [hdc]
    simp

theorem jsNumChars_no_p (m : ℤ) (k : ℕ) : ∀ c ∈ jsNumChars m k, c.toNat ≠ 112 := by
  intro c hc
  simp only [jsNumChars] at hc
  rcases List.mem_append.mp hc with hc | hc
  · by_cases hm : m < 0
    · simp only [hm, if_pos, List.mem_singleton] at hc
      subst hc
      decide
    · simp [hm] at hc
  · rcases decChars_chars m.natAbs k c hc with h | h <;> omega

theorem parseUnsigned_decChars (n k : ℕ) :
    parseUnsigned (decChars n k) = some ((n : ℚ) / 10 ^ k) := by
  by_cases hk : k = 0
  · subst hk
    rw [decChars, if_pos rfl]
    have hnod : ∀ c ∈ natDigits n, ¬c = Char.dot := by
      intro c hc he
      have h1 := natDigits_sandwich n c hc
      have h2 : c.toNat = 46 := by
        rw [he]
        rfl
      omega
    simp only [parseUnsigned]
    rw [splitAtDot_no_dot _ hnod]
    dsimp only
    rw [parseDigitsAux_natDigits n 0]
    simp
  · obtain ⟨I, F, ip, fp, hdc, hdig, hIne, hFlen, hip0, hfp0, hrel⟩ := decChars_frac n k hk
    have hInod : ∀ c ∈ I, ¬c = Char.dot := by
      intro c hc he
      have h1 := hdig c (List.mem_append_left _ hc)
      have h2 : c.toNat = 46 := by
        rw [he]
        rfl
      omega
    rw [hdc]
    simp only [parseUnsigned]
    rw [splitAtDot_append_dot I F hInod]
    dsimp only
    have hcond : ¬(I = [] ∧ F = []) := fun h => hIne h.1
    rw [if_neg hcond, hip0, hfp0]
    dsimp only
    have harith : (ip : ℚ) + (fp : ℚ) / 10 ^ k = ((ip * 10 ^ k + fp : ℕ) : ℚ) / 10 ^ k := by
      have h10 : ((10 : ℚ) ^ k) ≠ 0 := by positivity
      push_cast
      field_simp
    rw [hFlen, harith, hrel]

theorem jsParseNumber_jsNumChars (m : ℤ) (k : ℕ) :
    jsParseNumber (jsNumChars m k) = some ((m : ℚ) / 10 ^ k) := by
  by_cases hm : m < 0
  · have hjs : jsNumChars m k = Char.hyphen :: decChars m.natAbs k := by
      simp [jsNumChars, hm]
    rw [hjs]
    cases hd : decChars m.natAbs k with
    | nil => exact absurd hd (decChars_ne_nil _ _)
    | cons c0 cs0 =>
      simp only [jsParseNumber, beq_self_eq_true, if_pos]
      rw [← hd, parseUnsigned_decChars]
      simp only [Option.map_some']
      congr 1
      have habs : ((m.natAbs : ℚ)) = -(m : ℚ) := by
        have h1 : (m.natAbs : ℤ) = -m := by omega
        calc ((m.natAbs : ℚ)) = (((m.natAbs : ℤ) : ℚ)) := (Int.cast_natCast m.natAbs).symm
          _ = ((-m : ℤ) : ℚ) := by rw [h1]
          _ = -(m : ℚ) := Int.cast_neg m
      rw [habs]
      ring
  · have hjs : jsNumChars m k = decChars m.natAbs k := by
      simp [jsNumChars, hm]
    cases hd : decChars m.natAbs k with
    | nil => exact absurd hd (decChars_ne_nil _ _)
    | cons c0 cs0 =>
      have hc0 : c0.toNat ≠ 45 := by
        rcases decChars_chars m.natAbs k c0 (hd ▸ List.mem_cons_self c0 cs0) with h | h <;>
          omega
      have hne : (c0 == Char.hyphen) = false := by
        refine beq_eq_false_iff_ne.mpr (fun he => hc0 ?_)
        rw [he]
        rfl
      rw [hjs, hd]
      simp only [jsParseNumber, hne, Bool.false_eq_true, if_false]
      rw [← hd, parseUnsigned_decChars]
      congr 2
      have h1 : (m.natAbs : ℤ) = m := by omega
      calc ((m.natAbs : ℚ)) = (((m.natAbs : ℤ) : ℚ)) := (Int.cast_natCast m.natAbs).symm
        _ = (m : ℚ) := by rw [h1]

/-- C10: the position accessors round-trip — for every particle style state
and every finite numeric value, setting the `top` (respectively `left`)
accessor to that value and then reading the same accessor returns exactly
that value, despite the value being stored through the `'px'` pixel-string
encoding (decimal string conversion on write, `replace('px', '')` plus
`Number` on read).  Every finite JavaScript number is exactly `m / 10^k`
for an integer `m` and natural `k` (a binary fraction is a decimal
fraction), so the quantification over `(m, k)` covers every finite numeric
value, fractional positions included. -/
theorem style_roundtrip (e : FlakeStyle) (m : ℤ) (k : ℕ) :
    getTopStyle (setTopStyle e m k) = some ((m : ℚ) / 10 ^ k) ∧
      getLeftStyle (setLeftStyle e m k) = some ((m : ℚ) / 10 ^ k) := by
  have key : jsParseNumber (replaceFirstCs pxSuffix [] (pxEncodeNum m k)) =
      some ((m : ℚ) / 10 ^ k) := by
    rw [pxEncodeNum, replaceFirstCs_strip (jsNumChars m k) (jsNumChars_no_p m k)]
    exact jsParseNumber_jsNumChars m k
  exact ⟨key, key⟩

/-!
## Shared facts about `animate`
-/

theorem mem_of_getElem?_some {l : List Flake} {i : ℕ} {a : Flake} (h : l[i]? = some a) :
    a ∈ l := by
  have h1 := List.getElem?_eq_some.mp h
  exact h1.2 ▸ List.getElem_mem h1.1

theorem flakeIdx_lt_length (fid : ℕ) :
    ∀ (l : List Flake) (k : ℕ), flakeIdx fid l = some k → k < l.length
  | [], k, h => by simp [flakeIdx] at h
  | f :: fs, k, h => by
    by_cases he : f.id = fid
    · simp only [flakeIdx, he, if_pos, Option.some_inj] at h
      simp only [List.length_cons]
      omega
    · simp only [flakeIdx, he, if_false] at h
      cases hk : flakeIdx fid fs with
      | none => rw [hk] at h; simp at h
      | some k' =>
        rw [hk] at h
        simp at h
        have := flakeIdx_lt_length fid fs k' hk
        simp only [List.length_cons]
        omega

theorem flakeIdx_isSome_of_mem (fid : ℕ) :
    ∀ l : List Flake, fid ∈ flakeIds l → ∃ k, flakeIdx fid l = some k
  | [], h => by simp [flakeIds] at h
  | f :: fs, h => by
    by_cases he : f.id = fid
    · exact ⟨0, by simp [flakeIdx, he]⟩
    · have hm : fid ∈ flakeIds fs := by
        rcases List.mem_cons.mp h with h | h
        · exact absurd h.symm (by simpa using he)
        · exact h
      obtain ⟨k, hk⟩ := flakeIdx_isSome_of_mem fid fs hm
      exact ⟨k + 1, by simp [flakeIdx, he, hk]⟩

theorem length_spliceOneAt_some (l : List Flake) (k : ℕ) (h : k < l.length) :
    (spliceOneAt l (some k)).length = l.length - 1 := by
  simp only [spliceOneAt, List.length_append, List.length_take, List.length_drop]
  omega

theorem animateGo_length :
    ∀ (fuel j : ℕ) (s : Controller),
      (animateGo fuel j s).rainflakes.length = s.rainflakes.length
  | 0, _, _ => rfl
  | fuel + 1, j, s => by
    rw [animateGo]
    cases hj : s.rainflakes[j]? with
    | none => rfl
    | some f =>
      have hlt : j < s.rainflakes.length := (List.getElem?_eq_some.mp hj).1
      set f' := fallStep s.config.FALL_RATE f with hf'
      set s1 : Controller := { s with rainflakes := s.rainflakes.set j f' } with hs1
      by_cases hoob : oobCheck s1.docW s1.docH f' = true
      · have hmem : f'.id ∈ flakeIds s1.rainflakes := by
          have : f' ∈ s1.rainflakes := by
            refine mem_of_getElem?_some (i := j) ?_
            show (s.rainflakes.set j f')[j]? = some f'
            exact List.getElem?_set_eq_of_lt f' (by simpa using hlt)
          exact List.mem_map_of_mem Flake.id this
        obtain ⟨k, hk⟩ := flakeIdx_isSome_of_mem f'.id s1.rainflakes hmem
        have hklt : k < s1.rainflakes.length := flakeIdx_lt_length f'.id s1.rainflakes k hk
        have hlen1 : s1.rainflakes.length = s.rainflakes.length := by simp [hs1]
        simp only [hoob, if_pos]
        rw [animateGo_length fuel (j + 1) _]
        have hspawn :
            ∀ t : Controller, (Controller.spawn t).rainflakes.length = t.rainflakes.length + 1 := by
          intro t
          simp [Controller.spawn]
        rw [hspawn]
        show (spliceOneAt s1.rainflakes (flakeIdx f'.id s1.rainflakes)).length + 1 =
          s.rainflakes.length
        rw [hk, length_spliceOneAt_some s1.rainflakes k hklt]
        omega
      · simp only [hoob, if_neg, Bool.not_eq_true]
        rw [animateGo_length fuel (j + 1) s1]
        simp [hs1]

theorem animateGo_fields :
    ∀ (fuel j : ℕ) (s : Controller),
      (animateGo fuel j s).config = s.config ∧ (animateGo fuel j s).gen = s.gen ∧
        (animateGo fuel j s).active = s.active ∧
        (animateGo fuel j s).intervalLive = s.intervalLive ∧
        (animateGo fuel j s).docW = s.docW ∧ (animateGo fuel j s).docH = s.docH
  | 0, _, _ => ⟨rfl, rfl, rfl, rfl, rfl, rfl⟩
  | fuel + 1, j, s => by
    rw [animateGo]
    cases hj : s.rainflakes[j]? with
    | none => exact ⟨rfl, rfl, rfl, rfl, rfl, rfl⟩
    | some f =>
      by_cases hoob :
          oobCheck s.docW s.docH (fallStep s.config.FALL_RATE f) = true
      · simp only [hoob, if_pos]
        exact animateGo_fields fuel (j + 1) _
      · simp only [hoob, if_neg, Bool.not_eq_true]
        exact animateGo_fields fuel (j + 1) _

/-!
## C1 — the population bound
-/

theorem stepEv_config (s : Controller) (e : Event) : (stepEv s e).config = s.config := by
  cases e with
  | tick =>
    by_cases hl : s.intervalLive = true
    · simp only [stepEv, hl, if_pos]
      exact (animateGo_fields s.rainflakes.length 0 s).1
    · simp [stepEv, hl]
  | genResume k =>
    cases hg : s.gen[k]? with
    | none => simp [stepEv, hg]
    | some i =>
      by_cases ha : s.active = true
      · simp [stepEv, hg, ha, Controller.spawn]
      · simp [stepEv, hg, ha]

theorem stepEv_PoolInv (s : Controller) (e : Event) (h : PoolInv s) : PoolInv (stepEv s e) := by
  cases e with
  | tick =>
    by_cases hl : s.intervalLive = true
    · simp only [stepEv, hl, if_pos]
      have hf := animateGo_fields s.rainflakes.length 0 s
      have hlen := animateGo_length s.rainflakes.length 0 s
      show PoolInv (animateGo s.rainflakes.length 0 s)
      unfold PoolInv at h ⊢
      rw [hlen, hf.1, hf.2.1]
      exact h
    · simpa [stepEv, hl] using h
  | genResume k =>
    cases hg : s.gen[k]? with
    | none => simpa [stepEv, hg] using h
    | some i =>
      have hklt : k < s.gen.length := (List.getElem?_eq_some.mp hg).1
      have hlen1 : s.gen.length = 1 := by
        have := h.2.1
        omega
      have hk0 : k = 0 := by omega
      have hgen : s.gen = [i] := by
        subst hk0
        cases hc : s.gen with
        | nil => rw [hc] at hg; simp at hg
        | cons a t =>
          cases t with
          | nil =>
            rw [hc] at hg
            simp at hg
            rw [hg]
          | cons b t2 => rw [hc] at hlen1; simp at hlen1
      have hi := h.2.2 i (by simp [hgen])
      by_cases ha : s.active = true
      · simp only [stepEv, hg, ha, if_pos]
        unfold PoolInv
        have hsl : (Controller.spawn s).rainflakes.length = s.rainflakes.length + 1 := by
          simp [Controller.spawn]
        refine ⟨?_, ?_, ?_⟩
        · show (Controller.spawn s).rainflakes.length ≤ s.config.LIMIT
          rw [hsl]
          omega
        · by_cases hlim : i + 1 < s.config.LIMIT <;> simp [hlim, hgen, hk0]
        · intro jj hjj
          by_cases hlim : i + 1 < s.config.LIMIT
          · simp only [hlim, if_pos, hgen, hk0, List.set_cons_zero, List.mem_singleton] at hjj
            subst hjj
            refine ⟨?_, hlim⟩
            show (Controller.spawn s).rainflakes.length = i + 1
            rw [hsl]
            omega
          · simp [hlim, hgen, hk0] at hjj
      · simp only [stepEv, hg, ha, if_neg, Bool.not_eq_true]
        unfold PoolInv
        refine ⟨h.1, ?_, ?_⟩
        · show (s.gen.eraseIdx k).length ≤ 1
          have := List.length_eraseIdx_le s.gen k
          have := h.2.1
          omega
        · intro jj hjj
          exact h.2.2 jj ((List.eraseIdx_sublist s.gen k).mem hjj)

theorem runEvents_PoolInv :
    ∀ (evs : List Event) (s : Controller), PoolInv s →
      PoolInv (runEvents s evs) ∧ (runEvents s evs).config = s.config
  | [], _, h => ⟨h, rfl⟩
  | e :: evs, s, h => by
    have h1 := stepEv_PoolInv s e h
    have hc := stepEv_config s e
    have h2 := runEvents_PoolInv evs (stepEv s e) h1
    exact ⟨h2.1, h2.2.trans hc⟩

/-- C1 (amended): provided the pool does not already exceed the configured
limit and at most one `generate` loop is pending with its loop index equal to
the current pool size (the state `start`'s `generate()` call establishes),
the pool never exceeds `config.LIMIT` throughout any interleaving of
`generate`'s delayed spawns with `animate` ticks — every spawn of the pending
loop is matched by the loop-bound check, and each `animate` recycling pairs a
removal with a replacement, preserving the pool size. -/
theorem pool_never_exceeds_limit (s : Controller) (evs : List Event) (h : PoolInv s) :
    (runEvents s evs).rainflakes.length ≤ s.config.LIMIT ∧ PoolInv (runEvents s evs) := by
  have h1 := runEvents_PoolInv evs s h
  refine ⟨?_, h1.1⟩
  have := h1.1.1
  rw [h1.2] at this
  exact this

/-- C1 counterexample: a controller whose pool already holds two flakes with
`LIMIT = 1` (as two dispatched `spawn` commands produce, since `spawn` never
checks the limit).  `start`'s `generate()` completes immediately without
scheduling anything (the pool is not below the limit), and a steady-state
`animate` tick preserves the oversized pool: `particles.length = 2 > 1 =
config.limit` after `generate` completes, refuting the bound for arbitrary
initial pool sizes. -/
theorem pool_limit_exceeded :
    (Controller.start overfull).gen = [] ∧
      (Controller.start overfull).config.LIMIT = 1 ∧
      (Controller.start overfull).rainflakes.length = 2 ∧
      (runEvents (Controller.start overfull) [Event.tick]).rainflakes.length = 2 := by
  refine ⟨rfl, rfl, rfl, ?_⟩
  show (stepEv (Controller.start overfull) Event.tick).rainflakes.length = 2
  have hs : Controller.start overfull =
      { overfull with active := true, intervalLive := true, tickRegs := 1, genCalls := 1 } := by
    simp [Controller.start, Controller.generateCall, overfull]
  rw [hs]
  simp [stepEv, overfull, Controller.animate, animateGo, fallStep, oobCheck, rainflakeBounds,
    flakeWidth, flakeHeight]
  norm_num

/-- Witness for `pool_never_exceeds_limit` at a concrete well-formed
controller and a short event interleaving. -/
theorem pool_never_exceeds_limit_witness :
    PoolInv sceneSmall ∧
      (runEvents sceneSmall [Event.tick, Event.genResume 0]).rainflakes.length ≤
        sceneSmall.config.LIMIT :=
  ⟨by decide, (pool_never_exceeds_limit sceneSmall [Event.tick, Event.genResume 0]
    (by decide)).1⟩

/-!
## C2 — the out-of-bounds classification
-/

theorem spawn_rainflakes (t : Controller) :
    (Controller.spawn t).rainflakes =
      t.rainflakes ++ [⟨t.nextId, t.rng.headD 0 * t.docW, 0, t.config.BLUR⟩] := rfl

theorem remove_rainflakes (t : Controller) (fid : ℕ) :
    (Controller.remove t fid).rainflakes =
      spliceOneAt t.rainflakes (flakeIdx fid t.rainflakes) := rfl

theorem flakeIdx_append_cons (fid : ℕ) (g : Flake) (hg : g.id = fid) :
    ∀ (A B : List Flake), fid ∉ flakeIds A → flakeIdx fid (A ++ g :: B) = some A.length
  | [], B, _ => by simp [flakeIdx, hg]
  | a :: A, B, hA => by
    have hmem : a.id ∈ flakeIds (a :: A) := by simp [flakeIds]
    have h1 : ¬a.id = fid := fun he => hA (he ▸ hmem)
    have h2 : fid ∉ flakeIds A := fun hm => hA (by simp [flakeIds] at hm ⊢; right; exact hm)
    simp only [List.cons_append, flakeIdx, h1, if_false, List.append_eq]
    rw [flakeIdx_append_cons fid g hg A B h2]
    simp

theorem take_at_len (A B : List Flake) (j : ℕ) (h : A.length = j) : (A ++ B).take j = A := by
  subst h
  exact List.take_left A B

theorem drop_at_len (A B : List Flake) (j : ℕ) (h : A.length = j) : (A ++ B).drop j = B := by
  subst h
  exact List.drop_left A B

theorem take_succ_at_len (A B : List Flake) (g : Flake) (j : ℕ) (h : A.length = j) :
    (A ++ g :: B).take (j + 1) = A ++ [g] := by
  subst h
  rw [List.take_append]
  rfl

theorem drop_succ_at_len (A B : List Flake) (g : Flake) (j : ℕ) (h : A.length = j) :
    (A ++ g :: B).drop (j + 1) = B := by
  subst h
  rw [List.drop_append]
  rfl

theorem take_of_take_succ (l m : List Flake) (j : ℕ) (h : l.take (j + 1) = m.take (j + 1)) :
    l.take j = m.take j := by
  have h1 : l.take j = (l.take (j + 1)).take j := by
    rw [List.take_take]
    congr 1
    omega
  have h2 : m.take j = (m.take (j + 1)).take j := by
    rw [List.take_take]
    congr 1
    omega
  rw [h1, h2, h]

theorem animateGo_sound :
    ∀ (fuel j : ℕ) (s : Controller),
      (flakeIds s.rainflakes).Nodup → (∀ g ∈ s.rainflakes, g.id < s.nextId) →
      (animateGo fuel j s).rainflakes.take j = s.rainflakes.take j ∧
        ∀ f ∈ s.rainflakes.drop j, f.id ∉ flakeIds (animateGo fuel j s).rainflakes →
          oobCheck s.docW s.docH (fallStep s.config.FALL_RATE f) = true
  | 0, _, _, _, _ => by
    refine ⟨rfl, fun f hf hnot => ?_⟩
    exact absurd (List.mem_map_of_mem Flake.id (List.mem_of_mem_drop hf)) hnot
  | fuel + 1, j, s, hnd, hfr => by
    rw [animateGo]
    cases hj : s.rainflakes[j]? with
    | none =>
      refine ⟨rfl, fun f hf hnot => ?_⟩
      exact absurd (List.mem_map_of_mem Flake.id (List.mem_of_mem_drop hf)) hnot
    | some f0 =>
      have hlt : j < s.rainflakes.length := (List.getElem?_eq_some.mp hj).1
      have hf0mem : f0 ∈ s.rainflakes := mem_of_getElem?_some hj
      set rate := s.config.FALL_RATE with hrate
      set f' := fallStep rate f0 with hf'
      set s1 : Controller := { s with rainflakes := s.rainflakes.set j f' } with hs1
      set A := s.rainflakes.take j with hA
      set B := s.rainflakes.drop (j + 1) with hB
      have hAlen : A.length = j := by
        rw [hA, List.length_take]
        omega
      have hdec : s.rainflakes = A ++ f0 :: B := by
        rw [hA, hB]
        conv_lhs => rw [← List.take_append_drop (j + 1) s.rainflakes]
        rw [List.take_succ, hj]
        simp
      have hset : s.rainflakes.set j f' = A ++ f' :: B := by
        rw [hA, hB]
        exact List.set_eq_take_cons_drop f' hlt
      have hidsdec : flakeIds s.rainflakes = flakeIds A ++ f0.id :: flakeIds B := by
        conv_lhs => rw [hdec]
        simp [flakeIds]
      have hnd' : (flakeIds A ++ f0.id :: flakeIds B).Nodup := hidsdec ▸ hnd
      have hnotA : f0.id ∉ flakeIds A := fun hmem =>
        (List.nodup_append.mp hnd').2.2 hmem (List.mem_cons_self _ _)
      have hdropj : s.rainflakes.drop j = f0 :: B := by
        conv_lhs => rw [hdec]
        exact drop_at_len A (f0 :: B) j hAlen
      have hABmem : ∀ g, g ∈ A ++ B → g ∈ s.rainflakes := by
        intro g hg
        rw [hdec]
        rcases List.mem_append.mp hg with hg | hg
        · exact List.mem_append_left _ hg
        · exact List.mem_append_right _ (List.mem_cons_of_mem _ hg)
      by_cases hoob : oobCheck s1.docW s1.docH f' = true
      · simp only [hoob, if_pos]
        have hs1r : s1.rainflakes = A ++ f' :: B := hset
        have hrem : (Controller.remove s1 f'.id).rainflakes = A ++ B := by
          rw [remove_rainflakes, hs1r, flakeIdx_append_cons f'.id f' rfl A B hnotA]
          show (A ++ f' :: B).take A.length ++ (A ++ f' :: B).drop (A.length + 1) = A ++ B
          rw [List.take_left, drop_succ_at_len A B f' A.length rfl]
        have ht : (Controller.spawn (Controller.remove s1 f'.id)).rainflakes =
            (A ++ B) ++ [⟨s.nextId, s.rng.headD 0 * s.docW, 0, s.config.BLUR⟩] := by
          rw [spawn_rainflakes, hrem]
          rfl
        have hndT :
            (flakeIds (Controller.spawn (Controller.remove s1 f'.id)).rainflakes).Nodup := by
          rw [ht]
          have hidst : flakeIds ((A ++ B) ++
              [(⟨s.nextId, s.rng.headD 0 * s.docW, 0, s.config.BLUR⟩ : Flake)]) =
              (flakeIds A ++ flakeIds B) ++ [s.nextId] := by
            simp [flakeIds]
          rw [hidst]
          have hndAB : (flakeIds A ++ flakeIds B).Nodup := by
            have hsub : List.Sublist (flakeIds A ++ flakeIds B)
                (flakeIds A ++ f0.id :: flakeIds B) :=
              List.Sublist.append_left (List.sublist_cons_self _ _) _
            exact hnd'.sublist hsub
          have hfresh : s.nextId ∉ flakeIds A ++ flakeIds B := by
            intro hmem
            have hmem2 : s.nextId ∈ flakeIds (A ++ B) := by simpa [flakeIds] using hmem
            obtain ⟨g, hg, hgid⟩ := List.mem_map.mp hmem2
            have := hfr g (hABmem g hg)
            omega
          refine List.Nodup.append hndAB (List.nodup_singleton _) ?_
          intro a ha hb
          simp only [List.mem_singleton] at hb
          subst hb
          exact hfresh ha
        have hfrT : ∀ g ∈ (Controller.spawn (Controller.remove s1 f'.id)).rainflakes,
            g.id < (Controller.spawn (Controller.remove s1 f'.id)).nextId := by
          intro g hg
          show g.id < s.nextId + 1
          rw [ht] at hg
          rcases List.mem_append.mp hg with hg | hg
          · have := hfr g (hABmem g hg)
            omega
          · simp only [List.mem_singleton] at hg
            subst hg
            show s.nextId < s.nextId + 1
            omega
        have IH := animateGo_sound fuel (j + 1) (Controller.spawn (Controller.remove s1 f'.id))
          hndT hfrT
        constructor
        · have h1 := take_of_take_succ _ _ j IH.1
          rw [h1, ht, List.append_assoc]
          exact take_at_len A _ j hAlen
        · intro f hf hnot
          rw [hdropj] at hf
          rcases List.mem_cons.mp hf with rfl | hfB
          · exact hoob
          · have hft : f ∈ (Controller.spawn (Controller.remove s1 f'.id)).rainflakes := by
              rw [ht]
              exact List.mem_append_left _ (List.mem_append_right _ hfB)
            rw [← List.take_append_drop (j + 1)
              (Controller.spawn (Controller.remove s1 f'.id)).rainflakes] at hft
            rcases List.mem_append.mp hft with hft | hft
            · exact absurd
                (List.mem_map_of_mem Flake.id (List.mem_of_mem_take (IH.1 ▸ hft))) hnot
            · exact IH.2 f hft hnot
      · simp only [hoob, if_neg, Bool.not_eq_true]
        have hs1r : s1.rainflakes = A ++ f' :: B := hset
        have hids1 : flakeIds s1.rainflakes = flakeIds A ++ f0.id :: flakeIds B := by
          rw [hs1r]
          simp only [flakeIds, List.map_append, List.map_cons]
          rfl
        have hndT : (flakeIds s1.rainflakes).Nodup := by
          rw [hids1]
          exact hnd'
        have hfrT : ∀ g ∈ s1.rainflakes, g.id < s1.nextId := by
          intro g hg
          show g.id < s.nextId
          rw [hs1r] at hg
          rcases List.mem_append.mp hg with hg | hg
          · exact hfr g (hABmem g (List.mem_append_left _ hg))
          · rcases List.mem_cons.mp hg with rfl | hg
            · exact hfr f0 hf0mem
            · exact hfr g (hABmem g (List.mem_append_right _ hg))
        have IH := animateGo_sound fuel (j + 1) s1 hndT hfrT
        constructor
        · have h1 := take_of_take_succ _ _ j IH.1
          rw [h1, hs1r]
          exact take_at_len A _ j hAlen
        · intro f hf hnot
          rw [hdropj] at hf
          rcases List.mem_cons.mp hf with rfl | hfB
          · exfalso
            have hmem1 : f' ∈ s1.rainflakes.take (j + 1) := by
              rw [hs1r, take_succ_at_len A B f' j hAlen]
              simp
            have hmem2 : f' ∈ (animateGo fuel (j + 1) s1).rainflakes :=
              List.mem_of_mem_take (IH.1 ▸ hmem1)
            have hid2 : f'.id ∈ flakeIds (animateGo fuel (j + 1) s1).rainflakes :=
              List.mem_map_of_mem Flake.id hmem2
            exact hnot hid2
          · have hft : f ∈ s1.rainflakes.drop (j + 1) := by
              rw [hs1r, drop_succ_at_len A B f' j hAlen]
              exact hfB
            exact IH.2 f hft hnot

/-- C2 (amended): in `animate`, a particle is classified out-of-bounds
exactly when its bounding box's LEFT edge (`bounds.x`) exceeds
`viewport.width` + box width, OR its TOP edge (`bounds.y`) exceeds
`viewport.height` + box height, evaluated after the tick's fall increment;
only particles whose updated position satisfies this condition are removed
(and each removal is paired with a replacement spawn, so a tick preserves
the pool size).  Formally: over a pool of distinct particles, any particle
gone after `animate` satisfied the code's check at its visit, and `animate`
preserves the pool length. -/
theorem animate_removal_sound (s : Controller)
    (hnd : (flakeIds s.rainflakes).Nodup) (hfr : ∀ g ∈ s.rainflakes, g.id < s.nextId)
    (f : Flake) (hf : f ∈ s.rainflakes)
    (hgone : f.id ∉ flakeIds (Controller.animate s).rainflakes) :
    oobCheck s.docW s.docH (fallStep s.config.FALL_RATE f) = true ∧
      (Controller.animate s).rainflakes.length = s.rainflakes.length := by
  refine ⟨?_, animateGo_length s.rainflakes.length 0 s⟩
  have h := animateGo_sound s.rainflakes.length 0 s hnd hfr
  exact h.2 f (by simpa using hf) hgone

/-- C2 counterexample: a particle at left 102 in a 100-wide viewport.  Its
bounding box's RIGHT edge (105) exceeds `viewport.width` + box width (103),
so the claim classifies it out-of-bounds and predicts removal — but the
code's check compares `bounds.x`, the LEFT edge (102, not above 103), so the
`animate` tick leaves the same particle in the pool, merely fallen by one
pixel: no removal, no replacement. -/
theorem spec_oob_not_removed :
    ((rainflakeBounds (fallStep sceneEdge.config.FALL_RATE ⟨0, 102, 0, 0⟩)).x +
          (rainflakeBounds (fallStep sceneEdge.config.FALL_RATE ⟨0, 102, 0, 0⟩)).width >
        sceneEdge.docW +
          (rainflakeBounds (fallStep sceneEdge.config.FALL_RATE ⟨0, 102, 0, 0⟩)).width) ∧
      oobCheck sceneEdge.docW sceneEdge.docH
          (fallStep sceneEdge.config.FALL_RATE ⟨0, 102, 0, 0⟩) = false ∧
      (Controller.animate sceneEdge).rainflakes = [⟨0, 102, 1, 0⟩] := by
  refine ⟨?_, ?_, ?_⟩
  · norm_num [rainflakeBounds, fallStep, sceneEdge, flakeWidth]
  · norm_num [oobCheck, rainflakeBounds, fallStep, sceneEdge, flakeWidth, flakeHeight]
  · simp [Controller.animate, animateGo, sceneEdge, fallStep, oobCheck, rainflakeBounds,
      flakeWidth, flakeHeight]
    norm_num

/-- Witness for `animate_removal_sound`: the flake far below the viewport in
`sceneDeep` is removed by the tick, and indeed its updated position passes
the code's out-of-bounds check; the pool size is preserved. -/
theorem animate_removal_sound_witness :
    (flakeIds sceneDeep.rainflakes).Nodup ∧
      (⟨0, 50, 150, 0⟩ : Flake) ∈ sceneDeep.rainflakes ∧
      (0 : ℕ) ∉ flakeIds (Controller.animate sceneDeep).rainflakes ∧
      oobCheck sceneDeep.docW sceneDeep.docH
          (fallStep sceneDeep.config.FALL_RATE ⟨0, 50, 150, 0⟩) = true ∧
      (Controller.animate sceneDeep).rainflakes.length = sceneDeep.rainflakes.length := by
  have hani : (Controller.animate sceneDeep).rainflakes = [⟨1, 0, 0, 0⟩] := by
    simp [Controller.animate, animateGo, sceneDeep, fallStep, oobCheck, rainflakeBounds,
      flakeWidth, flakeHeight, Controller.remove, Controller.spawn, flakeIdx, spliceOneAt]
    norm_num
  have hgone : (0 : ℕ) ∉ flakeIds (Controller.animate sceneDeep).rainflakes := by
    rw [hani]
    decide
  have h := animate_removal_sound sceneDeep (by decide) (by decide)
    ⟨0, 50, 150, 0⟩ (by decide) hgone
  exact ⟨by decide, by decide, hgone, h.1, h.2⟩
